import Mathlib

/-!
Shallow embedding of the WCAG build helpers:
* `11ty/techniques.ts` — technique catalog builder (`getTechniques`),
  guidelines version index (`getGuidelinesVersions`,
  `getInvertedGuidelinesVersions`) and taxonomy builder (`getPrinciples`);
* `eleventy.config.ts` — the `linkTechniques` and `linkUnderstanding`
  Liquid filters.

File-system access and DOM parsing are abstracted: a technique document is
represented by the pieces the code reads from it (path segments and the html
of its first `h1`), the guidelines index document by the nested
`.principle` / `.guideline` / `.sc` element data the code selects.
All functions are executable and errors thrown by the TypeScript code are
modelled with `Except String`.
-/

/-- Lexicographic comparison of char lists by code point; models the
JavaScript `<` operator on (ASCII) strings. -/
def charListLt : List Char → List Char → Bool
  | [], [] => false
  | [], _ :: _ => true
  | _ :: _, [] => false
  | a :: as, b :: bs =>
    if a.val < b.val then true
    else if b.val < a.val then false
    else charListLt as bs

/-- JavaScript string `<` (code-unit lexicographic; coincides with code
points on the ASCII identifiers this build uses). -/
def strLtB (a b : String) : Bool := charListLt a.data b.data

/-- Models `id.replace(/[^\d]/g, "")`: keep only decimal digits. -/
def stripNonDigits (s : String) : String := ⟨s.data.filter Char.isDigit⟩

/-- ASCII whitespace, the fragment of the JavaScript `\s` class exercised by
the corpus. -/
def isJsWs (c : Char) : Bool :=
  c = ' ' || c = '\t' || c = '\n' || c = '\r' || c = '\x0b' || c = '\x0c'

/-- Models `s.take n` on the underlying characters. -/
def strTakeChars (s : String) (n : Nat) : String := ⟨s.data.take n⟩

/-- Models `s.drop n` on the underlying characters. -/
def strDropChars (s : String) (n : Nat) : String := ⟨s.data.drop n⟩

/-- JavaScript `String.prototype.startsWith`. -/
def strStartsWith (s pre : String) : Bool := s.data.take pre.data.length == pre.data

/-- Character containment. -/
def strContains (s : String) (c : Char) : Bool := s.data.contains c

/-- Models `basename(filename, ".html")` for a bare filename: the `.html`
suffix, when present, is removed. -/
def basenameHtml (s : String) : String :=
  if (strDropChars s (s.data.length - 5)) == ".html" then strTakeChars s (s.data.length - 5)
  else s

/-- JavaScript `String.prototype.trim` (restricted to the ASCII whitespace
the corpus uses). -/
def jsTrim (s : String) : String :=
  ⟨((s.data.dropWhile isJsWs).reverse.dropWhile isJsWs).reverse⟩

/-- Drops the maximal leading whitespace run. -/
def dropWsRun : List Char → List Char
  | [] => []
  | c :: cs => if isJsWs c then dropWsRun cs else c :: cs

/-- Models `.replace(/\s\s+/, " ")` (no global flag): the leftmost run of
two or more whitespace characters — and only that run — is replaced by a
single space. -/
def replaceFirstWsRun : List Char → List Char
  | [] => []
  | [c] => [c]
  | c :: d :: rest =>
    if isJsWs c && isJsWs d then ' ' :: dropWsRun (d :: rest)
    else c :: replaceFirstWsRun (d :: rest)

/-- String form of `replaceFirstWsRun`. -/
def collapseFirstWs (s : String) : String := ⟨replaceFirstWsRun s.data⟩

/-- The `technologyTitles` constant of `11ty/techniques.ts`. -/
def technologyTitles : List (String × String) :=
  [("aria", "ARIA Techniques"),
   ("client-side-script", "Client-Side Script Techniques"),
   ("css", "CSS Techniques"),
   ("failures", "Common Failures"),
   ("flash", "Flash Techniques"),
   ("general", "General Techniques"),
   ("html", "HTML Techniques"),
   ("pdf", "PDF Techniques"),
   ("server-side-script", "Server-Side Script Techniques"),
   ("silverlight", "Silverlight Techniques"),
   ("smil", "SMIL Techniques"),
   ("text", "Plain-Text Techniques")]

/-- Models `Object.keys(technologyTitles)`. -/
def technologies : List String := technologyTitles.map Prod.fst

/-- The `Technique` interface. -/
structure Technique where
  id : String
  titleHtml : String
deriving DecidableEq, Repr

/-- A discovered `techniques/<technology>/<filename>` document, abstracted to
the data the code reads: the two path segments and the inner html of the
first `h1` element (`none` when the document has no `h1`, in which case
cheerio's `.html()` returns `null`). -/
structure TechFile where
  technology : String
  filename : String
  h1Html : Option String
deriving DecidableEq, Repr

/-- JavaScript object lookup on a string-keyed record built by repeated
assignment, represented as an association list. -/
def getVal {α : Type} : List (String × α) → String → Option α
  | [], _ => none
  | (k0, v) :: rest, k => if k0 == k then some v else getVal rest k

/-- One iteration of the `for (const path of paths)` loop body of
`getTechniques`: `assertIsTechnology` first, then the title is extracted;
a `null` h1 html makes the `!`-asserted `.replace` call throw. -/
def techniqueOfFile (f : TechFile) : Except String Technique :=
  if technologies.contains f.technology then
    match f.h1Html with
    | none => Except.error "TypeError: Cannot read properties of null (reading replace)"
    | some h => Except.ok { id := basenameHtml f.filename, titleHtml := collapseFirstWs h }
  else Except.error ("Invalid technology name: " ++ f.technology)

/-- Models `techniques[technology].push(...)` on the record pre-seeded with
every technology key. -/
def pushTechnique (acc : List (String × List Technique)) (tech : String)
    (t : Technique) : List (String × List Technique) :=
  acc.map (fun p => if p.1 == tech then (p.1, p.2 ++ [t]) else p)

/-- The discovery loop of `getTechniques`. -/
def buildTechniques : List (String × List Technique) → List TechFile →
    Except String (List (String × List Technique))
  | acc, [] => Except.ok acc
  | acc, f :: fs =>
    match techniqueOfFile f with
    | Except.error e => Except.error e
    | Except.ok t => buildTechniques (pushTechnique acc f.technology t) fs

/-- The `sort` comparator of `getTechniques` as a strict order: digits are
kept and the resulting strings are compared with JavaScript `<`/`>`
(string comparison — the ids are not converted to numbers). -/
def techLt (a b : Technique) : Bool :=
  strLtB (stripNonDigits a.id) (stripNonDigits b.id)

/-- Stable insertion preserving discovery order on ties. -/
def insertTech (x : Technique) : List Technique → List Technique
  | [] => [x]
  | y :: ys => if techLt y x then y :: insertTech x ys else x :: y :: ys

/-- Stable sort by `techLt`; models `Array.prototype.sort` (stable per
ES2019) under the comparator above. -/
def sortTechniques : List Technique → List Technique
  | [] => []
  | x :: xs => insertTech x (sortTechniques xs)

/-- The `getTechniques` function, over the abstract list of discovered documents: seed a
record with every technology, fill it in discovery order (failing fast on an
unknown technology segment or a missing `h1`), then sort each list. -/
def getTechniques (files : List TechFile) :
    Except String (List (String × List Technique)) :=
  match buildTechniques (technologies.map (fun t => (t, []))) files with
  | Except.error e => Except.error e
  | Except.ok m => Except.ok (m.map (fun p => (p.1, sortTechniques p.2)))

/-- The regex `^2[012]$` of `assertIsWcagVersion`, which matches exactly the
strings "20", "21", "22". -/
def isWcagVersionStr (v : String) : Bool :=
  v == "20" || v == "21" || v == "22"

/-- The `versions` record of `getGuidelinesVersions`, with its three keys in
declaration order. -/
structure VersionLists where
  v20 : List String
  v21 : List String
  v22 : List String
deriving DecidableEq, Repr

/-- Models `versions[version].push(basename(filename, ".html"))`. -/
def pushVersion (vs : VersionLists) (v : String) (b : String) : VersionLists :=
  if v == "20" then { vs with v20 := vs.v20 ++ [b] }
  else if v == "21" then { vs with v21 := vs.v21 ++ [b] }
  else { vs with v22 := vs.v22 ++ [b] }

/-- The discovery loop of `getGuidelinesVersions`: each path is a
`(version segment, filename)` pair; `assertIsWcagVersion` throws on an
unrecognized first segment. -/
def buildVersions : VersionLists → List (String × String) → Except String VersionLists
  | vs, [] => Except.ok vs
  | vs, (v, fn) :: rest =>
    if isWcagVersionStr v then buildVersions (pushVersion vs v (basenameHtml fn)) rest
    else Except.error ("Unexpected version found: " ++ v)

/-- Stable insertion for the default string sort. -/
def insertString (x : String) : List String → List String
  | [] => [x]
  | y :: ys => if strLtB y x then y :: insertString x ys else x :: y :: ys

/-- Default `Array.prototype.sort()` on strings: stable, code-unit
lexicographic. -/
def sortStrings : List String → List String
  | [] => []
  | x :: xs => insertString x (sortStrings xs)

/-- The `getGuidelinesVersions` function, over the abstract list of discovered
`understanding/<version>/<filename>` paths. -/
def getGuidelinesVersions (paths : List (String × String)) : Except String VersionLists :=
  match buildVersions ⟨[], [], []⟩ paths with
  | Except.error e => Except.error e
  | Except.ok vs => Except.ok ⟨sortStrings vs.v20, sortStrings vs.v21, sortStrings vs.v22⟩

/-- Models `invertedVersions[basename] = version`: assignment into a string-keyed
object — overwrite in place when the key exists, append otherwise. -/
def setKey : List (String × String) → String → String → List (String × String)
  | [], k, v => [(k, v)]
  | (k0, v0) :: rest, k, v =>
    if k0 == k then (k0, v) :: rest else (k0, v0) :: setKey rest k v

/-- The double loop of `getInvertedGuidelinesVersions`: `Object.entries`
iterates the integer-like keys "20", "21", "22" in ascending order, so the
"22" pass runs last and its assignments overwrite earlier ones. -/
def invertVersions (vs : VersionLists) : List (String × String) :=
  vs.v22.foldl (fun m b => setKey m b "22")
    (vs.v21.foldl (fun m b => setKey m b "21")
      (vs.v20.foldl (fun m b => setKey m b "20") []))

/-- The `getInvertedGuidelinesVersions` function. -/
def getInvertedGuidelinesVersions (paths : List (String × String)) :
    Except String (List (String × String)) :=
  match getGuidelinesVersions paths with
  | Except.error e => Except.error e
  | Except.ok vs => Except.ok (invertVersions vs)

/-- An `.sc` element of `guidelines/index.html`, abstracted to the data
`getPrinciples` reads: its `id` attribute, the text of its `h4`, and the
text of its `p.conformance-level`. -/
structure ScElem where
  id : String
  h4Text : String
  confLevelText : String
deriving DecidableEq, Repr

/-- A `.guideline` element: `id`, `h3` text, contained `.sc` elements in
document order. -/
structure GuidelineElem where
  id : String
  h3Text : String
  scs : List ScElem
deriving DecidableEq, Repr

/-- A `.principle` element: `id`, `h2` text, contained `.guideline` elements
in document order. -/
structure PrincipleElem where
  id : String
  h2Text : String
  guidelineEls : List GuidelineElem
deriving DecidableEq, Repr

/-- The `SuccessCriterion` interface (the `type` discriminator included). -/
structure SuccessCriterion where
  id : String
  name : String
  num : String
  level : String
  type : String
  version : String
deriving DecidableEq, Repr

/-- The `Guideline` interface. -/
structure Guideline where
  id : String
  name : String
  num : String
  type : String
  version : String
  successCriteria : List SuccessCriterion
deriving DecidableEq, Repr

/-- The `Principle` interface. -/
structure Principle where
  id : String
  name : String
  num : String
  type : String
  version : String
  guidelines : List Guideline
deriving DecidableEq, Repr

/-- Indexed traversal with fail-fast error propagation; models cheerio's
`.each` with the 0-based callback index when the callback may throw. -/
def mapIdxE {α β : Type} (f : Nat → α → Except String β) : Nat → List α → Except String (List β)
  | _, [] => Except.ok []
  | i, x :: xs =>
    match f i x with
    | Except.error e => Except.error e
    | Except.ok y =>
      match mapIdxE f (i + 1) xs with
      | Except.error e => Except.error e
      | Except.ok ys => Except.ok (y :: ys)

/-- The `.sc` callback of `getPrinciples`: the version is looked up by `id`
in the inverted index and asserted; a missing entry reaches
`assertIsWcagVersion` as `undefined` and throws. -/
def scOfElem (versions : List (String × String)) (i j k : Nat) (sc : ScElem) :
    Except String SuccessCriterion :=
  match getVal versions sc.id with
  | none => Except.error "Unexpected version found: undefined"
  | some v =>
    if isWcagVersionStr v then
      Except.ok
        { id := sc.id,
          name := jsTrim sc.h4Text,
          num := toString (i + 1) ++ "." ++ toString (j + 1) ++ "." ++ toString (k + 1),
          level := jsTrim sc.confLevelText,
          type := "SC",
          version := "WCAG" ++ v }
    else Except.error ("Unexpected version found: " ++ v)

/-- The `.guideline` callback: success criteria first, then the node is
pushed; `version` is hard-coded to WCAG21 exactly for the
`input-modalities` id. -/
def guidelineOfElem (versions : List (String × String)) (i j : Nat)
    (g : GuidelineElem) : Except String Guideline :=
  match mapIdxE (scOfElem versions i j) 0 g.scs with
  | Except.error e => Except.error e
  | Except.ok scs =>
    Except.ok
      { id := g.id,
        name := jsTrim g.h3Text,
        num := toString (i + 1) ++ "." ++ toString (j + 1),
        type := "Guideline",
        version := if g.id == "input-modalities" then "WCAG21" else "WCAG20",
        successCriteria := scs }

/-- The `.principle` callback. -/
def principleOfElem (versions : List (String × String)) (i : Nat)
    (p : PrincipleElem) : Except String Principle :=
  match mapIdxE (guidelineOfElem versions i) 0 p.guidelineEls with
  | Except.error e => Except.error e
  | Except.ok gs =>
    Except.ok
      { id := p.id,
        name := jsTrim p.h2Text,
        num := toString (i + 1),
        type := "Principle",
        version := "WCAG20",
        guidelines := gs }

/-- The `getPrinciples` function, parameterized by the inverted version index and the
parsed nesting of `guidelines/index.html`. -/
def getPrinciples (versions : List (String × String)) (doc : List PrincipleElem) :
    Except String (List Principle) :=
  mapIdxE (principleOfElem versions) 0 doc

/-- The page context the Liquid filters read (`this.page`). -/
structure PageCtx where
  inputPath : String
  filePathStem : String
deriving DecidableEq, Repr

/-- The per-technique data `linkTechniques` reads from `flatTechniques`. -/
structure FlatTechnique where
  truncatedTitle : String
  technology : String
deriving DecidableEq, Repr

/-- The per-guideline data `linkUnderstanding` reads from `flatGuidelines`. -/
structure FlatGuideline where
  num : String
  name : String
deriving DecidableEq, Repr

/-- The `urlBase` computation of `linkTechniques`: the regex
`^\/techniques\/.*\//` holds exactly when the stem starts with
`/techniques/` and another `/` follows that prefix. -/
def techUrlBase (base : String) (stem : String) : String :=
  if strStartsWith stem "/techniques/" && strContains (strDropChars stem 12) '/' then "../"
  else if strStartsWith stem "/techniques" then "" else base

/-- One element of the `.map` inside `linkTechniques`: an unresolvable id
produces a `console.warn` line and `undefined` (dropped later by
`compact`); a resolvable one produces the anchor markup. -/
def linkTechItem (flat : List (String × FlatTechnique)) (base : String)
    (page : PageCtx) (id : String) : Option String × Option String :=
  match getVal flat id with
  | none =>
    (some ("linkTechniques in " ++ page.inputPath ++
      ": skipping unresolvable technique id " ++ id), none)
  | some t =>
    (none, some ("<a href=\"" ++ techUrlBase base page.filePathStem ++
      t.technology ++ "/" ++ id ++ "\">" ++ id ++ ": " ++ t.truncatedTitle ++ "</a>"))

/-- The `linkTechniques` filter on a list of ids: returns the warnings
emitted and the joined links, `compact` having removed the skipped
entries. It never throws on an unresolvable id. -/
def linkTechniquesF (flat : List (String × FlatTechnique)) (base : String)
    (page : PageCtx) (ids : List String) : List String × String :=
  let items := ids.map (linkTechItem flat base page)
  (items.filterMap Prod.fst, String.intercalate "\nand\n" (items.filterMap Prod.snd))

/-- The `urlBase` computation of `linkUnderstanding`. -/
def undUrlBase (base : String) (stem : String) : String :=
  if strStartsWith stem "/understanding/" then "" else base

/-- The `.map` inside `linkUnderstanding`: an unresolvable id emits the
warning but the code then reads `guideline.num` from `undefined`, which
throws a `TypeError` and aborts the whole filter call. -/
def linkUndItems (flat : List (String × FlatGuideline)) (base : String)
    (page : PageCtx) : List String → List String × Except String (List String)
  | [] => ([], Except.ok [])
  | id :: rest =>
    match getVal flat id with
    | none =>
      (["linkUnderstanding in " ++ page.inputPath ++
        ": skipping unresolvable guideline shortname " ++ id],
       Except.error "TypeError: Cannot read properties of undefined (reading num)")
    | some g =>
      let link := "<a href=\"" ++ undUrlBase base page.filePathStem ++ id ++ "\">" ++
        g.num ++ ": " ++ g.name ++ "</a>"
      let r := linkUndItems flat base page rest
      (r.1, match r.2 with
            | Except.error e => Except.error e
            | Except.ok ls => Except.ok (link :: ls))

/-- The `linkUnderstanding` filter on a list of ids: the warnings emitted
and either the joined links or the thrown error. -/
def linkUnderstandingF (flat : List (String × FlatGuideline)) (base : String)
    (page : PageCtx) (ids : List String) : List String × Except String String :=
  let r := linkUndItems flat base page ids
  (r.1, match r.2 with
        | Except.error e => Except.error e
        | Except.ok ls => Except.ok (String.intercalate "\nand\n" ls))

/-- Discovered technique files with ids G10, G2, G1 (in that discovery
order) under the `general` technology. -/
def filesC1 : List TechFile :=
  [⟨"general", "G10.html", some "Ten"⟩, ⟨"general", "G2.html", some "Two"⟩,
   ⟨"general", "G1.html", some "One"⟩]

/-- One technique document whose `h1` markup contains two separate
whitespace runs. -/
def filesC3 : List TechFile := [⟨"css", "C1.html", some "Styled  Title  Here"⟩]

/-- A one-entry `flatTechniques` map. -/
def flatTechC2 : List (String × FlatTechnique) := [("G1", ⟨"Some Title", "general"⟩)]

/-- A one-entry `flatGuidelines` map. -/
def flatGuideC2 : List (String × FlatGuideline) := [("perceivable", ⟨"1", "Perceivable"⟩)]

/-- The citing document for the filter calls. -/
def pageC2 : PageCtx := ⟨"/understanding/doc.html", "/understanding/doc"⟩

/-- A version index resolving the single criterion id below. -/
def versC4 : List (String × String) := [("animation-from-interactions", "21")]

/-- An index document whose criterion's conformance-level marker reads
`" B "` — accepted by the build, which performs no level validation. -/
def docC4 : List PrincipleElem :=
  [⟨"p1", "Perceivable  ",
    [⟨"g1", " Motion",
      [⟨"animation-from-interactions", "Animation from Interactions", " B "⟩]⟩]⟩]

/-- The criterion node the build produces for `docC4`. -/
def scC4 : SuccessCriterion :=
  ⟨"animation-from-interactions", "Animation from Interactions", "1.1.1", "B", "SC", "WCAG21"⟩

/-- The guideline node the build produces for `docC4`. -/
def gC4 : Guideline := ⟨"g1", "Motion", "1.1", "Guideline", "WCAG20", [scC4]⟩

/-- The principle node the build produces for `docC4`. -/
def pC4 : Principle := ⟨"p1", "Perceivable", "1", "Principle", "WCAG20", [gC4]⟩

/-- An index document with the `input-modalities` guideline first among two
sibling guidelines. -/
def docW5 : List PrincipleElem :=
  [⟨"operable", "Operable",
    [⟨"input-modalities", "Input Modalities", []⟩,
     ⟨"keyboard-accessible", "Keyboard Accessible", []⟩]⟩]

/-- The produced `input-modalities` guideline node. -/
def gW5a : Guideline := ⟨"input-modalities", "Input Modalities", "1.1", "Guideline", "WCAG21", []⟩

/-- The produced sibling guideline node. -/
def gW5b : Guideline := ⟨"keyboard-accessible", "Keyboard Accessible", "1.2", "Guideline", "WCAG20", []⟩

/-- The produced principle node for `docW5`. -/
def pW5 : Principle := ⟨"operable", "Operable", "1", "Principle", "WCAG20", [gW5a, gW5b]⟩

/-- A version index for the one-criterion document below. -/
def versW6 : List (String × String) := [("non-text-content", "20")]

/-- A minimal three-level index document. -/
def docW6 : List PrincipleElem :=
  [⟨"perceivable", "Perceivable",
    [⟨"text-alternatives", "Text Alternatives",
      [⟨"non-text-content", "Non-text Content", "A"⟩]⟩]⟩]

/-- The produced criterion node for `docW6`. -/
def scW6 : SuccessCriterion := ⟨"non-text-content", "Non-text Content", "1.1.1", "A", "SC", "WCAG20"⟩

/-- The produced guideline node for `docW6`. -/
def gW6 : Guideline := ⟨"text-alternatives", "Text Alternatives", "1.1", "Guideline", "WCAG20", [scW6]⟩

/-- The produced principle node for `docW6`. -/
def pW6 : Principle := ⟨"perceivable", "Perceivable", "1", "Principle", "WCAG20", [gW6]⟩

/-- A version index for the one-criterion document below. -/
def versW7 : List (String × String) := [("sc-one", "21")]

/-- A minimal three-level index document whose criterion id resolves. -/
def docW7 : List PrincipleElem := [⟨"p", "P", [⟨"g", "G", [⟨"sc-one", "SC One", "AA"⟩]⟩]⟩]

/-- The produced criterion node for `docW7`. -/
def scW7 : SuccessCriterion := ⟨"sc-one", "SC One", "1.1.1", "AA", "SC", "WCAG21"⟩

/-- The produced guideline node for `docW7`. -/
def gW7 : Guideline := ⟨"g", "G", "1.1", "Guideline", "WCAG20", [scW7]⟩

/-- The produced principle node for `docW7`. -/
def pW7 : Principle := ⟨"p", "P", "1", "Principle", "WCAG20", [gW7]⟩

theorem techniqueOfFile_ok_inv {f : TechFile} {t : Technique}
    (h : techniqueOfFile f = Except.ok t) :
    technologies.contains f.technology = true ∧
      ∃ s, f.h1Html = some s ∧ t = ⟨basenameHtml f.filename, collapseFirstWs s⟩ := by
  unfold techniqueOfFile at h
  cases hc : technologies.contains f.technology with
  | false => rw [hc] at h; simp at h
  | true =>
    rw [hc] at h
    simp only [if_true] at h
    cases hh : f.h1Html with
    | none => rw [hh] at h; simp at h
    | some s =>
      rw [hh] at h
      refine ⟨rfl, s, rfl, ?_⟩
      cases h
      rfl

theorem techniqueOfFile_invalid {f : TechFile}
    (h : technologies.contains f.technology = false) :
    techniqueOfFile f = Except.error ("Invalid technology name: " ++ f.technology) := by
  unfold techniqueOfFile
  rw [h]
  simp

theorem techniqueOfFile_valid_some {f : TechFile} {s : String}
    (hc : technologies.contains f.technology = true) (hh : f.h1Html = some s) :
    techniqueOfFile f = Except.ok ⟨basenameHtml f.filename, collapseFirstWs s⟩ := by
  unfold techniqueOfFile
  rw [hc, hh]
  simp

theorem buildTechniques_ok_forall :
    ∀ (files : List TechFile) (acc m : List (String × List Technique)),
      buildTechniques acc files = Except.ok m →
      ∀ f ∈ files, ∃ t, techniqueOfFile f = Except.ok t := by
  intro files
  induction files with
  | nil => intro acc m _ f hf; cases hf
  | cons g gs ih =>
    intro acc m h f hf
    unfold buildTechniques at h
    cases ht : techniqueOfFile g with
    | error e => rw [ht] at h; cases h
    | ok t =>
      rw [ht] at h
      cases hf with
      | head => exact ⟨t, ht⟩
      | tail _ hmem => exact ih _ _ h f hmem

theorem buildTechniques_append_error :
    ∀ (pre : List TechFile) (acc : List (String × List Technique))
      (f : TechFile) (post : List TechFile) (e : String),
      (∀ g ∈ pre, ∃ t, techniqueOfFile g = Except.ok t) →
      techniqueOfFile f = Except.error e →
      buildTechniques acc (pre ++ f :: post) = Except.error e := by
  intro pre
  induction pre with
  | nil =>
    intro acc f post e _ hf
    rw [List.nil_append]
    unfold buildTechniques
    rw [hf]
  | cons g gs ih =>
    intro acc f post e hpre hf
    obtain ⟨t, ht⟩ := hpre g (List.mem_cons_self g gs)
    show buildTechniques acc (g :: (gs ++ f :: post)) = Except.error e
    unfold buildTechniques
    rw [ht]
    exact ih _ f post e (fun q hq => hpre q (List.mem_cons_of_mem g hq)) hf

theorem getTechniques_ok_forall {files : List TechFile} {m : List (String × List Technique)}
    (h : getTechniques files = Except.ok m) :
    ∀ f ∈ files, technologies.contains f.technology = true ∧ f.h1Html.isSome = true := by
  intro f hf
  unfold getTechniques at h
  cases hb : buildTechniques (technologies.map (fun t => (t, []))) files with
  | error e => rw [hb] at h; cases h
  | ok m0 =>
    obtain ⟨t, ht⟩ := buildTechniques_ok_forall files _ m0 hb f hf
    obtain ⟨hc, s, hs, _⟩ := techniqueOfFile_ok_inv ht
    exact ⟨hc, by rw [hs]; rfl⟩

/-- Claim C1: the claim states that technique lists are ordered by the
numeric value of the digit-stripped id, so that ids G10, G2, G1 come out as
[G1, G2, G10]. The code compares the digit-stripped ids as strings, so the
catalog actually orders them [G1, G10, G2]. -/
theorem c1_sort_is_lexicographic_on_digits :
    (getTechniques filesC1).map (fun m => (getVal m "general").map (fun l => l.map Technique.id))
        = Except.ok (some ["G1", "G10", "G2"]) ∧
      (["G1", "G10", "G2"] : List String) ≠ ["G1", "G2", "G10"] :=
  ⟨rfl, by decide⟩

/-- Claim C3: the claim states every run of two or more whitespace
characters in the h1 markup is collapsed; the code's `replace` has no
global flag, so only the first run is collapsed and later runs survive. -/
theorem c3_collapses_only_first_run :
    (getTechniques filesC3).map (fun m => (getVal m "css").map (fun l => l.map Technique.titleHtml))
        = Except.ok (some ["Styled Title  Here"]) ∧
      collapseFirstWs "Styled  Title  Here" ≠ "Styled Title Here" :=
  ⟨rfl, by decide⟩

/-- Claim C2: on an unresolvable id, `linkTechniques` warns and omits the
citation while keeping resolvable ones, but `linkUnderstanding` — despite
logging the same "skipping" warning — dereferences the missing record and
throws, aborting the call instead of omitting the citation. -/
theorem c2_linkUnderstanding_aborts :
    linkTechniquesF flatTechC2 "/techniques/" pageC2 ["G1", "F999"]
        = (["linkTechniques in /understanding/doc.html: skipping unresolvable technique id F999"],
           "<a href=\"/techniques/general/G1\">G1: Some Title</a>") ∧
      linkUnderstandingF flatGuideC2 "/understanding/" pageC2 ["perceivable", "nonexistent"]
        = (["linkUnderstanding in /understanding/doc.html: skipping unresolvable guideline shortname nonexistent"],
           Except.error "TypeError: Cannot read properties of undefined (reading num)") :=
  ⟨rfl, rfl⟩

/-- Claim C10: a discovered technique document without an `h1` makes the
whole `getTechniques` call fail: a successful catalog implies every
document had an `h1`, and a document without one excludes any successful
return. -/
theorem c10_missing_h1_fails :
    (∀ (files : List TechFile) (m : List (String × List Technique)),
        getTechniques files = Except.ok m → ∀ f ∈ files, f.h1Html.isSome = true) ∧
      (∀ (files : List TechFile) (f : TechFile), f ∈ files → f.h1Html = none →
        ∀ m, getTechniques files ≠ Except.ok m) := by
  constructor
  · intro files m h f hf
    exact (getTechniques_ok_forall h f hf).2
  · intro files f hf hnone m h
    have := (getTechniques_ok_forall h f hf).2
    rw [hnone] at this
    cases this

/-- Claim C10 witness at a concrete catalog: a single `css` document with
no `h1` rules out a successful return. -/
theorem c10_witness :
    getTechniques [⟨"css", "C1.html", none⟩] ≠ Except.ok (technologies.map (fun t => (t, []))) :=
  c10_missing_h1_fails.2 [⟨"css", "C1.html", none⟩] ⟨"css", "C1.html", none⟩ (by simp) rfl _

/-- Claim C9: a discovered path whose first segment is outside the closed
partition enumeration makes the build fail: for the technique corpus any
such file forces an error, and when the earlier files are well-formed the
error names the unrecognized technology; for the understanding corpus the
error names the unrecognized version. -/
theorem c9_invalid_partition_fails :
    (∀ (files : List TechFile) (f : TechFile), f ∈ files →
        technologies.contains f.technology = false →
        ∃ e, getTechniques files = Except.error e) ∧
      (∀ (pre : List TechFile) (f : TechFile) (post : List TechFile),
        (∀ g ∈ pre, technologies.contains g.technology = true ∧ g.h1Html.isSome = true) →
        technologies.contains f.technology = false →
        getTechniques (pre ++ f :: post)
          = Except.error ("Invalid technology name: " ++ f.technology)) ∧
      (∀ (pre : List (String × String)) (p : String × String) (post : List (String × String)),
        isWcagVersionStr p.1 = false →
        getGuidelinesVersions (pre ++ p :: post)
          = Except.error ("Unexpected version found: " ++ p.1) ∨
        ∃ q ∈ pre, isWcagVersionStr q.1 = false) := by
  refine ⟨?_, ?_, ?_⟩
  · intro files f hf hc
    cases h : getTechniques files with
    | error e => exact ⟨e, rfl⟩
    | ok m =>
      have := (getTechniques_ok_forall h f hf).1
      rw [hc] at this
      cases this
  · intro pre f post hpre hc
    have hb : buildTechniques (technologies.map (fun t => (t, []))) (pre ++ f :: post)
        = Except.error ("Invalid technology name: " ++ f.technology) := by
      refine buildTechniques_append_error pre _ f post _ ?_ (techniqueOfFile_invalid hc)
      intro g hg
      obtain ⟨hcg, hsg⟩ := hpre g hg
      cases hs : g.h1Html with
      | none => rw [hs] at hsg; cases hsg
      | some s => exact ⟨_, techniqueOfFile_valid_some hcg hs⟩
    unfold getTechniques
    rw [hb]
  · intro pre p post hp
    obtain ⟨v, fn⟩ := p
    have hp2 : isWcagVersionStr v = false := hp
    by_cases hq : ∀ q ∈ pre, isWcagVersionStr q.1 = true
    · left
      have hb : ∀ (pre2 : List (String × String)) (vs : VersionLists),
          (∀ q ∈ pre2, isWcagVersionStr q.1 = true) →
          buildVersions vs (pre2 ++ (v, fn) :: post)
            = Except.error ("Unexpected version found: " ++ v) := by
        intro pre2
        induction pre2 with
        | nil =>
          intro vs _
          rw [List.nil_append]
          unfold buildVersions
          rw [hp2]
          simp
        | cons q qs ih =>
          intro vs hqs
          obtain ⟨qv, qfn⟩ := q
          have hqv : isWcagVersionStr qv = true :=
            hqs (qv, qfn) (List.mem_cons_self (qv, qfn) qs)
          show buildVersions vs ((qv, qfn) :: (qs ++ (v, fn) :: post)) = _
          unfold buildVersions
          rw [hqv]
          simp only [if_true]
          exact ih _ (fun r hr => hqs r (List.mem_cons_of_mem (qv, qfn) hr))
      show getGuidelinesVersions (pre ++ (v, fn) :: post)
          = Except.error ("Unexpected version found: " ++ v)
      unfold getGuidelinesVersions
      rw [hb pre ⟨[], [], []⟩ hq]
    · right
      push_neg at hq
      obtain ⟨q, hqm, hqf⟩ := hq
      exact ⟨q, hqm, by simpa using hqf⟩

/-- Claim C9 witness: a `bogus` technology directory and a `30` version
directory each fail fast with the identifying error. -/
theorem c9_witness :
    getTechniques [⟨"bogus", "x.html", some "T"⟩]
        = Except.error ("Invalid technology name: " ++ "bogus") ∧
      (getGuidelinesVersions [("30", "x.html")]
        = Except.error ("Unexpected version found: " ++ "30") ∨
        ∃ q ∈ ([] : List (String × String)), isWcagVersionStr q.1 = false) := by
  refine ⟨?_, ?_⟩
  · exact c9_invalid_partition_fails.2.1 [] ⟨"bogus", "x.html", some "T"⟩ [] (by simp) (by decide)
  · exact c9_invalid_partition_fails.2.2 [] ("30", "x.html") [] (by decide)

theorem mapIdxE_ok_length {α β : Type} (f : Nat → α → Except String β) :
    ∀ (xs : List α) (n : Nat) (ys : List β),
      mapIdxE f n xs = Except.ok ys → ys.length = xs.length := by
  intro xs
  induction xs with
  | nil => intro n ys h; cases h; rfl
  | cons x xs ih =>
    intro n ys h
    unfold mapIdxE at h
    cases hx : f n x with
    | error e => rw [hx] at h; cases h
    | ok y =>
      rw [hx] at h
      cases hr : mapIdxE f (n + 1) xs with
      | error e => rw [hr] at h; cases h
      | ok ys0 =>
        rw [hr] at h
        cases h
        simp [ih (n + 1) ys0 hr]

theorem mapIdxE_ok_get {α β : Type} (f : Nat → α → Except String β) :
    ∀ (xs : List α) (n : Nat) (ys : List β),
      mapIdxE f n xs = Except.ok ys →
      ∀ (i : Nat) (x : α) (y : β), xs.get? i = some x → ys.get? i = some y →
        f (n + i) x = Except.ok y := by
  intro xs
  induction xs with
  | nil => intro n ys h i x y hx; cases hx
  | cons x0 xs ih =>
    intro n ys h i x y hx hy
    unfold mapIdxE at h
    cases hx0 : f n x0 with
    | error e => rw [hx0] at h; cases h
    | ok y0 =>
      rw [hx0] at h
      cases hr : mapIdxE f (n + 1) xs with
      | error e => rw [hr] at h; cases h
      | ok ys0 =>
        rw [hr] at h
        cases h
        cases i with
        | zero =>
          cases hx
          cases hy
          rw [Nat.add_zero]
          exact hx0
        | succ i =>
          have heq : n + (i + 1) = (n + 1) + i := by omega
          rw [heq]
          exact ih (n + 1) ys0 hr i x y hx hy

theorem mapIdxE_ok_mem {α β : Type} (f : Nat → α → Except String β) :
    ∀ (xs : List α) (n : Nat) (ys : List β),
      mapIdxE f n xs = Except.ok ys →
      ∀ y ∈ ys, ∃ i x, x ∈ xs ∧ f i x = Except.ok y := by
  intro xs
  induction xs with
  | nil => intro n ys h y hy; cases h; cases hy
  | cons x0 xs ih =>
    intro n ys h y hy
    unfold mapIdxE at h
    cases hx0 : f n x0 with
    | error e => rw [hx0] at h; cases h
    | ok y0 =>
      rw [hx0] at h
      cases hr : mapIdxE f (n + 1) xs with
      | error e => rw [hr] at h; cases h
      | ok ys0 =>
        rw [hr] at h
        cases h
        cases hy with
        | head => exact ⟨n, x0, List.mem_cons_self x0 xs, hx0⟩
        | tail _ hmem =>
          obtain ⟨i, x, hx, hfx⟩ := ih (n + 1) ys0 hr y hmem
          exact ⟨i, x, List.mem_cons_of_mem x0 hx, hfx⟩

theorem mapIdxE_ok_src {α β : Type} (f : Nat → α → Except String β) :
    ∀ (xs : List α) (n : Nat) (ys : List β),
      mapIdxE f n xs = Except.ok ys →
      ∀ x ∈ xs, ∃ i y, f i x = Except.ok y ∧ y ∈ ys := by
  intro xs
  induction xs with
  | nil => intro n ys h x hx; cases hx
  | cons x0 xs ih =>
    intro n ys h x hx
    unfold mapIdxE at h
    cases hx0 : f n x0 with
    | error e => rw [hx0] at h; cases h
    | ok y0 =>
      rw [hx0] at h
      cases hr : mapIdxE f (n + 1) xs with
      | error e => rw [hr] at h; cases h
      | ok ys0 =>
        rw [hr] at h
        cases h
        cases hx with
        | head => exact ⟨n, y0, hx0, List.mem_cons_self y0 ys0⟩
        | tail _ hmem =>
          obtain ⟨i, y, hfy, hy⟩ := ih (n + 1) ys0 hr x hmem
          exact ⟨i, y, hfy, List.mem_cons_of_mem y0 hy⟩

theorem scOfElem_ok_inv {versions : List (String × String)} {i j k : Nat}
    {sc : ScElem} {out : SuccessCriterion}
    (h : scOfElem versions i j k sc = Except.ok out) :
    ∃ v, getVal versions sc.id = some v ∧ isWcagVersionStr v = true ∧
      out = { id := sc.id, name := jsTrim sc.h4Text,
              num := toString (i + 1) ++ "." ++ toString (j + 1) ++ "." ++ toString (k + 1),
              level := jsTrim sc.confLevelText, type := "SC", version := "WCAG" ++ v } := by
  unfold scOfElem at h
  cases hv : getVal versions sc.id with
  | none => rw [hv] at h; cases h
  | some v =>
    simp only [hv] at h
    cases hw : isWcagVersionStr v with
    | false =>
      rw [if_neg (by simp [hw])] at h
      cases h
    | true =>
      rw [if_pos hw] at h
      cases h
      exact ⟨v, rfl, hw, rfl⟩

theorem guidelineOfElem_ok_inv {versions : List (String × String)} {i j : Nat}
    {g : GuidelineElem} {out : Guideline}
    (h : guidelineOfElem versions i j g = Except.ok out) :
    ∃ scs, mapIdxE (scOfElem versions i j) 0 g.scs = Except.ok scs ∧
      out = { id := g.id, name := jsTrim g.h3Text,
              num := toString (i + 1) ++ "." ++ toString (j + 1),
              type := "Guideline",
              version := if g.id == "input-modalities" then "WCAG21" else "WCAG20",
              successCriteria := scs } := by
  unfold guidelineOfElem at h
  cases hs : mapIdxE (scOfElem versions i j) 0 g.scs with
  | error e => rw [hs] at h; cases h
  | ok scs =>
    rw [hs] at h
    cases h
    exact ⟨scs, rfl, rfl⟩

theorem principleOfElem_ok_inv {versions : List (String × String)} {i : Nat}
    {p : PrincipleElem} {out : Principle}
    (h : principleOfElem versions i p = Except.ok out) :
    ∃ gs, mapIdxE (guidelineOfElem versions i) 0 p.guidelineEls = Except.ok gs ∧
      out = { id := p.id, name := jsTrim p.h2Text, num := toString (i + 1),
              type := "Principle", version := "WCAG20", guidelines := gs } := by
  unfold principleOfElem at h
  cases hs : mapIdxE (guidelineOfElem versions i) 0 p.guidelineEls with
  | error e => rw [hs] at h; cases h
  | ok gs =>
    rw [hs] at h
    cases h
    exact ⟨gs, rfl, rfl⟩

theorem scOfElem_resolved {versions : List (String × String)} {i j k : Nat}
    {scEl : ScElem} {sc : SuccessCriterion}
    (h : scOfElem versions i j k scEl = Except.ok sc) :
    ∃ v, getVal versions sc.id = some v ∧ (v = "20" ∨ v = "21" ∨ v = "22") ∧
      sc.version = "WCAG" ++ v := by
  obtain ⟨v, hv, hw, hpeq⟩ := scOfElem_ok_inv h
  subst hpeq
  refine ⟨v, hv, ?_, rfl⟩
  have hw2 : (v = "20" ∨ v = "21") ∨ v = "22" := by
    simpa [isWcagVersionStr, Bool.or_eq_true, beq_iff_eq] using hw
  tauto

theorem scOfElem_none {versions : List (String × String)} {i j k : Nat} {scEl : ScElem}
    (h : getVal versions scEl.id = none) :
    scOfElem versions i j k scEl = Except.error "Unexpected version found: undefined" := by
  unfold scOfElem
  rw [h]

theorem guidelineOfElem_version {versions : List (String × String)} {i j : Nat}
    {gEl : GuidelineElem} {g : Guideline}
    (h : guidelineOfElem versions i j gEl = Except.ok g) :
    (g.version = "WCAG21" ↔ g.id = "input-modalities") ∧
      (g.id ≠ "input-modalities" → g.version = "WCAG20") := by
  obtain ⟨scs, hscs, hpeq⟩ := guidelineOfElem_ok_inv h
  subst hpeq
  by_cases he : gEl.id = "input-modalities"
  · refine ⟨⟨fun _ => he, fun _ => ?_⟩, fun hne => absurd he hne⟩
    show (if gEl.id == "input-modalities" then "WCAG21" else "WCAG20") = "WCAG21"
    rw [if_pos (by simp [he])]
  · refine ⟨⟨fun hv => ?_, fun hid => absurd hid he⟩, fun _ => ?_⟩
    · exfalso
      have hv2 : (if gEl.id == "input-modalities" then "WCAG21" else "WCAG20") = "WCAG21" := hv
      rw [if_neg (by simp [he])] at hv2
      exact absurd hv2 (by decide)
    · show (if gEl.id == "input-modalities" then "WCAG21" else "WCAG20") = "WCAG20"
      rw [if_neg (by simp [he])]

/-- Claim C5: a guideline node's version is WCAG21 exactly when its id is
`input-modalities`, and WCAG20 for every other id, independent of its
position among siblings. -/
theorem c5_input_modalities_version (versions : List (String × String))
    (doc : List PrincipleElem) (ps : List Principle)
    (h : getPrinciples versions doc = Except.ok ps) :
    ∀ p ∈ ps, ∀ g ∈ p.guidelines,
      (g.version = "WCAG21" ↔ g.id = "input-modalities") ∧
        (g.id ≠ "input-modalities" → g.version = "WCAG20") := by
  intro p hp g hg
  obtain ⟨i, pEl, _, hf⟩ := mapIdxE_ok_mem _ doc 0 ps h p hp
  obtain ⟨gs, hgs, hpeq⟩ := principleOfElem_ok_inv hf
  subst hpeq
  obtain ⟨j, gEl, _, hgf⟩ := mapIdxE_ok_mem _ pEl.guidelineEls 0 gs hgs g hg
  exact guidelineOfElem_version hgf

/-- Claim C5 witness: with `input-modalities` placed first among two sibling
guidelines, it alone resolves to WCAG21 and its sibling to WCAG20. -/
theorem c5_witness : gW5a.version = "WCAG21" ∧ gW5b.version = "WCAG20" := by
  have h := c5_input_modalities_version [] docW5 [pW5] rfl
  have h1 := h pW5 (by simp) gW5a (by simp [pW5])
  have h2 := h pW5 (by simp) gW5b (by simp [pW5])
  exact ⟨h1.1.mpr (by decide), h2.2 (by decide)⟩

/-- Claim C7: in a successfully built tree every success criterion's id
resolves in the version index to one of 20/21/22 and its version is the
resolved one prefixed with WCAG; and an `.sc` element whose id is absent
from the index excludes any successful return. -/
theorem c7_version_resolution (versions : List (String × String))
    (doc : List PrincipleElem) :
    (∀ ps, getPrinciples versions doc = Except.ok ps →
      ∀ p ∈ ps, ∀ g ∈ p.guidelines, ∀ sc ∈ g.successCriteria,
        ∃ v, getVal versions sc.id = some v ∧ (v = "20" ∨ v = "21" ∨ v = "22") ∧
          sc.version = "WCAG" ++ v) ∧
      (∀ pEl ∈ doc, ∀ gEl ∈ pEl.guidelineEls, ∀ scEl ∈ gEl.scs,
        getVal versions scEl.id = none →
        ∀ ps, getPrinciples versions doc ≠ Except.ok ps) := by
  constructor
  · intro ps h p hp g hg sc hsc
    obtain ⟨i, pEl, _, hf⟩ := mapIdxE_ok_mem _ doc 0 ps h p hp
    obtain ⟨gs, hgs, hpeq⟩ := principleOfElem_ok_inv hf
    subst hpeq
    obtain ⟨j, gEl, _, hgf⟩ := mapIdxE_ok_mem _ pEl.guidelineEls 0 gs hgs g hg
    obtain ⟨scs, hscs, hgeq⟩ := guidelineOfElem_ok_inv hgf
    subst hgeq
    obtain ⟨k, scEl, _, hsf⟩ := mapIdxE_ok_mem _ gEl.scs 0 scs hscs sc hsc
    exact scOfElem_resolved hsf
  · intro pEl hpEl gEl hgEl scEl hscEl hnone ps h
    obtain ⟨i, p, hf, _⟩ := mapIdxE_ok_src _ doc 0 ps h pEl hpEl
    obtain ⟨gs, hgs, hpeq⟩ := principleOfElem_ok_inv hf
    obtain ⟨j, g, hgf, _⟩ := mapIdxE_ok_src _ pEl.guidelineEls 0 gs hgs gEl hgEl
    obtain ⟨scs, hscs, hgeq⟩ := guidelineOfElem_ok_inv hgf
    obtain ⟨k, sc, hsf, _⟩ := mapIdxE_ok_src _ gEl.scs 0 scs hscs scEl hscEl
    rw [scOfElem_none hnone] at hsf
    cases hsf

/-- Claim C7 witness: the criterion id `sc-one` resolves to version 21 and
its node carries `WCAG21`. -/
theorem c7_witness :
    getVal versW7 scW7.id = some "21" ∧ scW7.version = "WCAG" ++ "21" := by
  obtain ⟨v, hv, hd, hver⟩ :=
    (c7_version_resolution versW7 docW7).1 [pW7] rfl pW7 (by simp) gW7 (by simp [pW7])
      scW7 (by simp [gW7])
  have hv2 : getVal versW7 scW7.id = some "21" := rfl
  rw [hv2] at hv
  have hveq : v = "21" := (Option.some.inj hv).symm
  subst hveq
  exact ⟨hv2, hver⟩

/-- Claim C4 counterexample: the build accepts an index document whose
conformance-level marker reads `" B "` and produces a criterion node with
level `"B"`, outside {A, AA, AAA}. -/
theorem c4_counterexample :
    getPrinciples versC4 docC4 = Except.ok [pC4] ∧
      pC4 ∈ [pC4] ∧ gC4 ∈ pC4.guidelines ∧ scC4 ∈ gC4.successCriteria ∧
      scC4.level ≠ "A" ∧ scC4.level ≠ "AA" ∧ scC4.level ≠ "AAA" := by
  refine ⟨rfl, ?_, ?_, ?_, by decide, by decide, by decide⟩
  · simp
  · simp [pC4]
  · simp [gC4]

/-- Claim C4 (amended): a produced criterion's level is the trimmed text of
its source element's conformance-level marker, copied without validation. -/
theorem c4_level_is_trimmed_text (versions : List (String × String))
    (doc : List PrincipleElem) (ps : List Principle)
    (h : getPrinciples versions doc = Except.ok ps) :
    ∀ p ∈ ps, ∀ g ∈ p.guidelines, ∀ sc ∈ g.successCriteria,
      ∃ pEl, pEl ∈ doc ∧ ∃ gEl, gEl ∈ pEl.guidelineEls ∧ ∃ scEl, scEl ∈ gEl.scs ∧
        sc.id = scEl.id ∧ sc.level = jsTrim scEl.confLevelText := by
  intro p hp g hg sc hsc
  obtain ⟨i, pEl, hpm, hf⟩ := mapIdxE_ok_mem _ doc 0 ps h p hp
  obtain ⟨gs, hgs, hpeq⟩ := principleOfElem_ok_inv hf
  subst hpeq
  obtain ⟨j, gEl, hgm, hgf⟩ := mapIdxE_ok_mem _ pEl.guidelineEls 0 gs hgs g hg
  obtain ⟨scs, hscs, hgeq⟩ := guidelineOfElem_ok_inv hgf
  subst hgeq
  obtain ⟨k, scEl, hsm, hsf⟩ := mapIdxE_ok_mem _ gEl.scs 0 scs hscs sc hsc
  obtain ⟨v, hv, hw, hseq⟩ := scOfElem_ok_inv hsf
  subst hseq
  exact ⟨pEl, hpm, gEl, hgm, scEl, hsm, rfl, rfl⟩

/-- Claim C4 witness: the `" B "` marker yields level `jsTrim " B "`. -/
theorem c4_witness :
    scC4.id = "animation-from-interactions" ∧ scC4.level = jsTrim " B " := by
  obtain ⟨pEl, hpm, gEl, hgm, scEl, hsm, hid, hlev⟩ :=
    c4_level_is_trimmed_text versC4 docC4 [pC4] rfl pC4 (by simp) gC4 (by simp [pC4])
      scC4 (by simp [gC4])
  simp only [docC4, List.mem_singleton] at hpm
  subst hpm
  simp only [List.mem_singleton] at hgm
  subst hgm
  simp only [List.mem_singleton] at hsm
  subst hsm
  exact ⟨hid, hlev⟩

/-- Claim C6: numbering is strictly positional and 1-based — the node at
position i (0-based) gets num i+1, its j-th guideline gets (i+1).(j+1), and
that guideline's k-th criterion gets (i+1).(j+1).(k+1), with the output
carrying exactly one node per source element at every level. -/
theorem c6_positional_numbering (versions : List (String × String))
    (doc : List PrincipleElem) (ps : List Principle)
    (h : getPrinciples versions doc = Except.ok ps) :
    ps.length = doc.length ∧
      (∀ i p, ps.get? i = some p →
        p.num = toString (i + 1) ∧
        ∀ j g, p.guidelines.get? j = some g →
          g.num = toString (i + 1) ++ "." ++ toString (j + 1) ∧
          ∀ k sc, g.successCriteria.get? k = some sc →
            sc.num = toString (i + 1) ++ "." ++ toString (j + 1) ++ "." ++ toString (k + 1)) ∧
      (∀ i p pEl, ps.get? i = some p → doc.get? i = some pEl →
        p.guidelines.length = pEl.guidelineEls.length ∧
        ∀ j g gEl, p.guidelines.get? j = some g → pEl.guidelineEls.get? j = some gEl →
          g.successCriteria.length = gEl.scs.length) := by
  have hlen := mapIdxE_ok_length _ doc 0 ps h
  refine ⟨hlen, ?_, ?_⟩
  · intro i p hp
    have hlt : i < ps.length := by
      by_contra hge
      rw [List.get?_eq_none.mpr (Nat.le_of_not_lt hge)] at hp
      cases hp
    obtain ⟨pEl, hd⟩ : ∃ pEl, doc.get? i = some pEl := by
      cases hd : doc.get? i with
      | none => exfalso; rw [List.get?_eq_none] at hd; omega
      | some x => exact ⟨x, rfl⟩
    have hf := mapIdxE_ok_get _ doc 0 ps h i pEl p hd hp
    rw [Nat.zero_add] at hf
    obtain ⟨gs, hgs, hpeq⟩ := principleOfElem_ok_inv hf
    subst hpeq
    refine ⟨rfl, ?_⟩
    intro j g hg
    have hg2 : gs.get? j = some g := hg
    have hglen := mapIdxE_ok_length _ pEl.guidelineEls 0 gs hgs
    have hjlt : j < gs.length := by
      by_contra hge
      rw [List.get?_eq_none.mpr (Nat.le_of_not_lt hge)] at hg2
      cases hg2
    obtain ⟨gEl, hdg⟩ : ∃ gEl, pEl.guidelineEls.get? j = some gEl := by
      cases hdg : pEl.guidelineEls.get? j with
      | none => exfalso; rw [List.get?_eq_none] at hdg; omega
      | some x => exact ⟨x, rfl⟩
    have hgf := mapIdxE_ok_get _ pEl.guidelineEls 0 gs hgs j gEl g hdg hg2
    rw [Nat.zero_add] at hgf
    obtain ⟨scs, hscs, hgeq⟩ := guidelineOfElem_ok_inv hgf
    subst hgeq
    refine ⟨rfl, ?_⟩
    intro k sc hsc
    have hsc2 : scs.get? k = some sc := hsc
    have hslen := mapIdxE_ok_length _ gEl.scs 0 scs hscs
    have hklt : k < scs.length := by
      by_contra hge
      rw [List.get?_eq_none.mpr (Nat.le_of_not_lt hge)] at hsc2
      cases hsc2
    obtain ⟨scEl, hds⟩ : ∃ scEl, gEl.scs.get? k = some scEl := by
      cases hds : gEl.scs.get? k with
      | none => exfalso; rw [List.get?_eq_none] at hds; omega
      | some x => exact ⟨x, rfl⟩
    have hsf := mapIdxE_ok_get _ gEl.scs 0 scs hscs k scEl sc hds hsc2
    rw [Nat.zero_add] at hsf
    obtain ⟨v, hv, hw, hseq⟩ := scOfElem_ok_inv hsf
    subst hseq
    rfl
  · intro i p pEl hp hd
    have hf := mapIdxE_ok_get _ doc 0 ps h i pEl p hd hp
    rw [Nat.zero_add] at hf
    obtain ⟨gs, hgs, hpeq⟩ := principleOfElem_ok_inv hf
    subst hpeq
    have hglen := mapIdxE_ok_length _ pEl.guidelineEls 0 gs hgs
    refine ⟨hglen, ?_⟩
    intro j g gEl hg hdg
    have hg2 : gs.get? j = some g := hg
    have hgf := mapIdxE_ok_get _ pEl.guidelineEls 0 gs hgs j gEl g hdg hg2
    rw [Nat.zero_add] at hgf
    obtain ⟨scs, hscs, hgeq⟩ := guidelineOfElem_ok_inv hgf
    subst hgeq
    exact mapIdxE_ok_length _ gEl.scs 0 scs hscs

/-- Claim C6 witness: the single principle/guideline/criterion document gets
nums 1, 1.1, 1.1.1 and matching lengths. -/
theorem c6_witness :
    pW6.num = "1" ∧ gW6.num = "1.1" ∧ scW6.num = "1.1.1" ∧
      ([pW6] : List Principle).length = docW6.length := by
  have h := c6_positional_numbering versW6 docW6 [pW6] rfl
  have h0 := h.2.1 0 pW6 rfl
  have h1 := h0.2 0 gW6 rfl
  have h2 := h1.2 0 scW6 rfl
  exact ⟨h0.1.trans (by decide), h1.1.trans (by decide), h2.trans (by decide), h.1⟩

theorem getVal_setKey (m : List (String × String)) (k v k2 : String) :
    getVal (setKey m k v) k2 = if k2 = k then some v else getVal m k2 := by
  induction m with
  | nil =>
    simp only [setKey, getVal, beq_iff_eq]
    by_cases hk : k = k2
    · subst hk; simp
    · rw [if_neg hk, if_neg (fun h => hk (Eq.symm h))]
  | cons p rest ih =>
    obtain ⟨k0, v0⟩ := p
    simp only [setKey, beq_iff_eq]
    by_cases h0 : k0 = k
    · subst h0
      rw [if_pos rfl]
      simp only [getVal, beq_iff_eq]
      by_cases hk : k0 = k2
      · subst hk; simp
      · rw [if_neg hk, if_neg (fun h => hk (Eq.symm h)), if_neg hk]
    · rw [if_neg h0]
      simp only [getVal, beq_iff_eq]
      by_cases hk : k0 = k2
      · subst hk
        simp [h0]
      · simp [hk, ih]

theorem getVal_foldl_setKey (ver : String) :
    ∀ (bs : List String) (m0 : List (String × String)) (k : String),
      getVal (bs.foldl (fun m b => setKey m b ver) m0) k =
        if bs.contains k then some ver else getVal m0 k := by
  intro bs
  induction bs with
  | nil => intro m0 k; simp
  | cons b bs ih =>
    intro m0 k
    show getVal (bs.foldl (fun m b => setKey m b ver) (setKey m0 b ver)) k = _
    rw [ih]
    by_cases hmem : k ∈ bs
    · simp [hmem, List.contains_cons]
    · rw [getVal_setKey]
      by_cases hb : k = b
      · subst hb; simp [List.contains_cons]
      · simp [List.contains_cons, hmem, hb, fun h => hb (Eq.symm h)]

/-- Claim C8: inverting the per-version basename lists assigns each
basename the version of the latest scan containing it (scan order 20, 21,
22), silently overwriting earlier entries and never failing: the inverted
map is returned whenever the version lists were built. -/
theorem c8_later_scan_overwrites (paths : List (String × String)) (vs : VersionLists)
    (h : getGuidelinesVersions paths = Except.ok vs) :
    getInvertedGuidelinesVersions paths = Except.ok (invertVersions vs) ∧
      ∀ b, getVal (invertVersions vs) b =
        if vs.v22.contains b then some "22"
        else if vs.v21.contains b then some "21"
        else if vs.v20.contains b then some "20"
        else none := by
  constructor
  · unfold getInvertedGuidelinesVersions
    rw [h]
  · intro b
    unfold invertVersions
    rw [getVal_foldl_setKey, getVal_foldl_setKey, getVal_foldl_setKey]
    simp [getVal]

/-- Claim C8 witness: a basename found under both 20 and 21 is mapped to
"21" by the inverted index, with no error. -/
theorem c8_witness :
    getInvertedGuidelinesVersions [("20", "a.html"), ("21", "a.html")]
        = Except.ok (invertVersions ⟨["a"], ["a"], []⟩) ∧
      getVal (invertVersions ⟨["a"], ["a"], []⟩) "a" = some "21" := by
  have h := c8_later_scan_overwrites [("20", "a.html"), ("21", "a.html")] ⟨["a"], ["a"], []⟩ rfl
  exact ⟨h.1, (h.2 "a").trans (by decide)⟩
